import Mathlib

/-!
Verification of the core BIO-parsing and evaluation engine of the
KUL_IDUB_EcclesialSchematisms repository.

The definitions below are a shallow embedding of

  * `src/dataset/parser.py` : `bio_to_spans`, `sort_by_layout`,
    `build_page_json`, `validate_bio_tags`;
  * `src/core/data/stats.py` : `normalize_text`, `_precision_recall`, `_f1`,
    `_accuracy`, `evaluate_json_response` together with the relevant part of
    `rapidfuzz.process.extractOne`.

Python strings are Lean `String`s, `None` is `Option.none`, Python lists are
Lean `List`s.  Places where the Python code could raise (`next(...)` over an
empty generator, `list.remove` of a missing element) are embedded with
`Option`, `none` standing for the raised exception.  The fuzzy scorer is an
arbitrary function parameter `String → String → Nat` producing scores on the
0–100 scale, exactly as `evaluate_json_response` receives it.
-/

/-- Bounding box `[x1, y1, x2, y2]` of one OCR token (four integers in a
normalized coordinate range). -/
structure BBox where
  x1 : Int
  y1 : Int
  x2 : Int
  y2 : Int
deriving DecidableEq

instance : Inhabited BBox := ⟨⟨0, 0, 0, 0⟩⟩

/-- Embedding of the Python test `"-" in tag`. -/
def hasDash (s : String) : Bool := s.toList.any (fun c => c == '-')

/-- Embedding of `tag.split("-", 1)` : the part before the first `-` and the
part after it. -/
def splitTag (s : String) : String × String :=
  (String.mk (s.toList.takeWhile (fun c => c != '-')),
   String.mk ((s.toList.dropWhile (fun c => c != '-')).drop 1))

/-- Embedding of `" ".join(buff)`. -/
def joinSpace : List String → String
  | [] => ""
  | [w] => w
  | w :: rest => w ++ " " ++ joinSpace rest

/-- Python truthiness of an optional string: `None` and `""` are falsy. -/
def pyTruthy : Option String → Bool
  | none => false
  | some s => s ≠ ""

/-- State machine of `bio_to_spans`: `buff` is the open word buffer,
`entType` the `ent_type` variable (initially `None`), and the third argument
is the remaining `zip(words, labels)` stream.  Mirrors the Python loop
line by line, including the final flush. -/
def bioToSpansAux : List String → Option String → List (String × String) →
    List (Option String × String)
  | buff, entType, [] =>
      if buff.isEmpty then [] else [(entType, joinSpace buff)]
  | buff, entType, (w, tag) :: rest =>
      if tag = "O" then
        if buff.isEmpty then bioToSpansAux buff entType rest
        else (entType, joinSpace buff) :: bioToSpansAux [] none rest
      else if hasDash tag = false then bioToSpansAux buff entType rest
      else
        let pr := (splitTag tag).1
        let t := (splitTag tag).2
        if pr = "B" ∨ (pyTruthy entType = true ∧ entType ≠ some t) then
          if buff.isEmpty then bioToSpansAux [w] (some t) rest
          else (entType, joinSpace buff) :: bioToSpansAux [w] (some t) rest
        else bioToSpansAux (buff ++ [w]) entType rest

/-- Embedding of `bio_to_spans(words, labels)`.  The entity type of a span is
an `Option String` because the Python variable `ent_type` starts as `None`
and a dangling `I-` tag is buffered without ever setting it. -/
def bioToSpans (words labels : List String) : List (Option String × String) :=
  bioToSpansAux [] none (words.zip labels)

/-- Sort key of token `i` : the tuple `(bboxes[i][1], bboxes[i][0])`,
that is `(y1, x1)`. -/
def layoutKey (bboxes : List BBox) (i : Nat) : Int × Int :=
  ((bboxes.getD i default).y1, (bboxes.getD i default).x1)

/-- Python tuple comparison on the `(y1, x1)` keys (lexicographic). -/
def lexLe (a b : Int × Int) : Bool :=
  decide (a.1 < b.1 ∨ (a.1 = b.1 ∧ a.2 ≤ b.2))

/-- Embedding of `sorted(range(len(words)), key=...)` — a stable sort of the
index list by `(y1, x1)`, as Python's `sorted` is stable. -/
def sortOrder (n : Nat) (bboxes : List BBox) : List Nat :=
  (List.range n).mergeSort (fun i j => lexLe (layoutKey bboxes i) (layoutKey bboxes j))

/-- Embedding of `sort_by_layout(words, bboxes, labels)`.  Returns the pair
`(words, labels)` unchanged when the bounding boxes are absent or their
number does not match the words. -/
def sortByLayout (words : List String) (bboxes : List BBox) (labels : List String) :
    List String × List String :=
  if bboxes = [] ∨ bboxes.length ≠ words.length then (words, labels)
  else
    ((sortOrder words.length bboxes).map (fun i => words.getD i ""),
     (sortOrder words.length bboxes).map (fun i => labels.getD i ""))

/-- One structured entry of a page record. -/
structure Entry where
  parish : Option String
  dedication : Option String
  building_material : Option String
deriving DecidableEq

/-- Fresh entry `{"parish": None, "dedication": None, "building_material": None}`. -/
def emptyEntry : Entry := ⟨none, none, none⟩

/-- A page record as built by `build_page_json` and consumed by
`evaluate_json_response`. -/
structure Page where
  page_number : Option String
  deanery : Option String
  entries : List Entry
deriving DecidableEq

/-- Mutable state of the `build_page_json` span loop. -/
structure BuildState where
  page_number : Option String
  deanery : Option String
  entries : List Entry
  current : Entry
deriving DecidableEq

/-- One iteration of the span loop of `build_page_json`. -/
def buildStep (st : BuildState) (span : Option String × String) : BuildState :=
  if span.1 = some "page_number" then { st with page_number := some span.2 }
  else if span.1 = some "deanery" then { st with deanery := some span.2 }
  else if span.1 = some "parish" then
    if pyTruthy st.current.parish = true then
      { st with entries := st.entries ++ [st.current],
                current := { emptyEntry with parish := some span.2 } }
    else { st with current := { st.current with parish := some span.2 } }
  else if span.1 = some "dedication" then
    { st with current := { st.current with dedication := some span.2 } }
  else if span.1 = some "building_material" then
    { st with current := { st.current with building_material := some span.2 } }
  else st

/-- Span loop of `build_page_json` together with the final flush of the
current entry (flushed only when `current["parish"]` is truthy). -/
def pageFromSpans (spans : List (Option String × String)) : Page :=
  let st := spans.foldl buildStep ⟨none, none, [], emptyEntry⟩
  { page_number := st.page_number, deanery := st.deanery,
    entries := if pyTruthy st.current.parish = true
               then st.entries ++ [st.current] else st.entries }

/-- The `if bboxes: words, labels = sort_by_layout(...)` step of
`build_page_json`. -/
def sortedInput (words : List String) (bboxes : List BBox) (labels : List String) :
    List String × List String :=
  if bboxes = [] then (words, labels) else sortByLayout words bboxes labels

/-- Embedding of `build_page_json(words, bboxes, labels)`. -/
def buildPageJson (words : List String) (bboxes : List BBox) (labels : List String) :
    Page :=
  pageFromSpans (bioToSpans (sortedInput words bboxes labels).1
                            (sortedInput words bboxes labels).2)

/-- Validation issues of `validate_bio_tags`, one constructor per message
template of the Python source, carrying the interpolated values. -/
inductive Issue where
  | invalidFormat (i : Nat) (label : String)
  | invalidBioPre (i : Nat) (pre : String) (label : String)
  | iAfterO (i : Nat) (label : String)
  | entityMismatch (i : Nat) (label : String) (prevEntity : String)
deriving DecidableEq

/-- Issues produced by position `i` of the `validate_bio_tags` loop. -/
def issuesAt (labels : List String) (i : Nat) : List Issue :=
  let label := labels.getD i ""
  if label = "O" then []
  else if hasDash label = false then [Issue.invalidFormat i label]
  else
    let pr := (splitTag label).1
    let entityType := (splitTag label).2
    (if pr ≠ "B" ∧ pr ≠ "I" then [Issue.invalidBioPre i pr label] else []) ++
    (if pr = "I" ∧ 0 < i then
       let prev := labels.getD (i - 1) ""
       if prev = "O" then [Issue.iAfterO i label]
       else if hasDash prev = true then
         if (splitTag prev).2 ≠ entityType then
           [Issue.entityMismatch i label ((splitTag prev).2)]
         else []
       else []
     else [])

/-- Embedding of `validate_bio_tags(labels)`. -/
def validateBioTags (labels : List String) : List Issue :=
  (List.range labels.length).flatMap (issuesAt labels)

/-- Characters stripped by `txt.strip(",.; ")`. -/
def stripSet : List Char := [',', '.', ';', ' ']

/-- Embedding of `txt.strip(",.; ")` on the character list. -/
def stripEnds (cs : List Char) : List Char :=
  ((cs.dropWhile (fun c => stripSet.contains c)).reverse.dropWhile
      (fun c => stripSet.contains c)).reverse

/-- Models `unicodedata.normalize("NFKD", ·)` followed by
`.encode("ascii", "ignore")` for the characters appearing in this
development: ASCII characters are NFKD fixed points and survive unchanged;
Latin letters whose NFKD decomposition is an ASCII base letter plus combining
marks keep only the base letter (the marks are non-ASCII and are dropped by
the `ignore` encoding); remaining non-ASCII characters (such as `ł`, which
has no decomposition) are dropped entirely. -/
def charFold (c : Char) : List Char :=
  if c.toNat ≤ 127 then [c]
  else if c = 'ą' then ['a'] else if c = 'ć' then ['c'] else if c = 'ę' then ['e']
  else if c = 'ń' then ['n'] else if c = 'ó' then ['o'] else if c = 'ś' then ['s']
  else if c = 'ź' then ['z'] else if c = 'ż' then ['z']
  else if c = 'Ą' then ['A'] else if c = 'Ć' then ['C'] else if c = 'Ę' then ['E']
  else if c = 'Ń' then ['N'] else if c = 'Ó' then ['O'] else if c = 'Ś' then ['S']
  else if c = 'Ź' then ['Z'] else if c = 'Ż' then ['Z']
  else []

/-- Embedding of `normalize_text(txt)`: `None` becomes `""`; otherwise strip
`",.; "` from both ends, NFKD-decompose, drop non-ASCII, lowercase. -/
def normalizeText : Option String → String
  | none => ""
  | some t => String.mk (((stripEnds t.toList).flatMap charFold).map Char.toLower)

/-- Field names of the metrics dictionary built by `evaluate_json_response`. -/
inductive MField where
  | page_number | deanery | parish | dedication | building_material
deriving DecidableEq

/-- TP/FP/FN counters of one field (`_init_metrics` counter part). -/
structure Counters where
  TP : Nat
  FP : Nat
  FN : Nat
deriving DecidableEq

def initCounters : Counters := ⟨0, 0, 0⟩

/-- Counter dictionary `{field: _init_metrics() for field in [...]}`. -/
structure CAcc where
  page_number : Counters
  deanery : Counters
  parish : Counters
  dedication : Counters
  building_material : Counters
deriving DecidableEq

def initAcc : CAcc := ⟨initCounters, initCounters, initCounters, initCounters, initCounters⟩

def Counters.add (c : Counters) (tp fp fn : Nat) : Counters :=
  ⟨c.TP + tp, c.FP + fp, c.FN + fn⟩

/-- Embedding of `_update(metrics, field, tp, fp, fn)`. -/
def CAcc.update (m : CAcc) (f : MField) (tp fp fn : Nat) : CAcc :=
  match f with
  | .page_number => { m with page_number := m.page_number.add tp fp fn }
  | .deanery => { m with deanery := m.deanery.add tp fp fn }
  | .parish => { m with parish := m.parish.add tp fp fn }
  | .dedication => { m with dedication := m.dedication.add tp fp fn }
  | .building_material => { m with building_material := m.building_material.add tp fp fn }

def CAcc.get (m : CAcc) : MField → Counters
  | .page_number => m.page_number
  | .deanery => m.deanery
  | .parish => m.parish
  | .dedication => m.dedication
  | .building_material => m.building_material

/-- The default `entry_fields = ("parish", "dedication", "building_material")`. -/
def entryFields : List MField := [.parish, .dedication, .building_material]

/-- Embedding of `entry.get(fld, ...)` for the entry fields. -/
def Entry.getF (e : Entry) : MField → Option String
  | .parish => e.parish
  | .dedication => e.dedication
  | .building_material => e.building_material
  | _ => none

/-- A fuzzy scorer as passed to `evaluate_json_response`: a score on the
0–100 scale for a pair of strings. -/
abbrev Scorer := String → String → Nat

/-- The comparison pattern used both for the page-level fields and for the
entry fields of a matched pair: empty ground truth with a prediction is a
false positive, missing prediction a false negative, a similarity at or
above the threshold a true positive, and a mismatch both FP and FN.
Python falsiness of the values (`None` or `""`) is `= ""` here because the
callers pass `.get(fld, "")`-style defaults. -/
def cmpVals (scorer : Scorer) (thr : Nat) (m : CAcc) (f : MField)
    (gtv predv : String) : CAcc :=
  if gtv = "" then (if predv ≠ "" then m.update f 0 1 0 else m)
  else if predv = "" then m.update f 0 0 1
  else if thr ≤ scorer gtv predv then m.update f 1 0 0
  else m.update f 0 1 1

/-- Best-scoring choice search of `rapidfuzz.process.extractOne`: `None`
choices are skipped, the first choice achieving the maximal score wins
(later choices replace the best only on a strictly larger score). -/
def extractBestGo (scorer : Scorer) (q : String) :
    List (Option String) → Nat → Option (String × Nat × Nat) →
    Option (String × Nat × Nat)
  | [], _, best => best
  | none :: rest, i, best => extractBestGo scorer q rest (i + 1) best
  | some c :: rest, i, best =>
      match best with
      | none => extractBestGo scorer q rest (i + 1) (some (c, scorer q c, i))
      | some (bc, bsc, bi) =>
          if bsc < scorer q c then extractBestGo scorer q rest (i + 1) (some (c, scorer q c, i))
          else extractBestGo scorer q rest (i + 1) (some (bc, bsc, bi))

/-- Embedding of `process.extractOne(query, choices, scorer=scorer,
score_cutoff=thr)`: `None` for a `None` query, otherwise the best choice when
its score reaches the cutoff, as `(choice, score, index)`. -/
def extractOne (scorer : Scorer) (thr : Nat) (q : Option String)
    (choices : List (Option String)) : Option (String × Nat × Nat) :=
  match q with
  | none => none
  | some q =>
      match extractBestGo scorer q choices 0 none with
      | none => none
      | some (c, sc, i) => if thr ≤ sc then some (c, sc, i) else none

/-- Embedding of `next(e for e in pred_entries if e["parish"] == best)`
together with the position of that first entry; `none` models the
`StopIteration` the generator would raise when no entry qualifies. -/
def findEntryIdx : List Entry → String → Option (Entry × Nat)
  | [], _ => none
  | e :: rest, n =>
      if e.parish = some n then some (e, 0)
      else (findEntryIdx rest n).map (fun p => (p.1, p.2 + 1))

/-- The `for gt_entry in gt_entries` loop of `evaluate_json_response`.  State:
counter dictionary, `available_parishes` pool, and the positions (in
`pred_entries`) of the predicted entries used for field scoring so far.
`none` models an exception: `StopIteration` from `next(...)` or `ValueError`
from `available_parishes.remove(...)`. -/
def matchLoop (scorer : Scorer) (thr : Nat) (predEntries : List Entry) :
    CAcc → List (Option String) → List Nat → List Entry →
    Option (CAcc × List (Option String) × List Nat)
  | m, available, trace, [] => some (m, available, trace)
  | m, available, trace, gtE :: rest =>
      match extractOne scorer thr gtE.parish available with
      | none =>
          matchLoop scorer thr predEntries
            (entryFields.foldl (fun m2 f => m2.update f 0 0 1) m) available trace rest
      | some (bestName, _score, _idx) =>
          match findEntryIdx predEntries bestName with
          | none => none
          | some (bestPred, predIdx) =>
              if some bestName ∈ available then
                let m2 := (m.update .parish 1 0 0)
                let m3 := (entryFields.drop 1).foldl
                  (fun acc f => cmpVals scorer thr acc f
                    ((gtE.getF f).getD "") ((bestPred.getF f).getD "")) m2
                matchLoop scorer thr predEntries m3
                  (available.erase (some bestName)) (trace ++ [predIdx]) rest
              else none

/-- Page-level comparisons plus the entry-matching loop of
`evaluate_json_response`; returns the counters, the leftover pool and the
trace of used predicted-entry positions. -/
def evalCore (scorer : Scorer) (thr : Nat) (pred gtj : Page) :
    Option (CAcc × List (Option String) × List Nat) :=
  let m1 := cmpVals scorer thr initAcc .page_number
    (normalizeText gtj.page_number) (normalizeText pred.page_number)
  let m2 := cmpVals scorer thr m1 .deanery
    (normalizeText gtj.deanery) (normalizeText pred.deanery)
  matchLoop scorer thr pred.entries m2 (pred.entries.map (fun e => e.parish)) [] gtj.entries

/-- Counters of `evaluate_json_response` after the final
`for _ in available_parishes: for fld in entry_fields: _update(..., fp=1)`
loop. -/
def evaluateCounters (scorer : Scorer) (thr : Nat) (pred gtj : Page) : Option CAcc :=
  (evalCore scorer thr pred gtj).map (fun r =>
    r.2.1.foldl (fun m _ => entryFields.foldl (fun m2 f => m2.update f 0 1 0) m) r.1)

/-- Positions (in `pred_entries`) of the predicted entries selected by
`next(...)` for the successive matched ground-truth entries. -/
def matchTraceOf (scorer : Scorer) (thr : Nat) (pred gtj : Page) : Option (List Nat) :=
  (evalCore scorer thr pred gtj).map (fun r => r.2.2)

/-- Decimal rounding half to even, as Python's `round` on the third decimal. -/
def roundHalfEven (q : ℚ) : ℤ :=
  if q - ⌊q⌋ < 1 / 2 then ⌊q⌋
  else if 1 / 2 < q - ⌊q⌋ then ⌊q⌋ + 1
  else if Even ⌊q⌋ then ⌊q⌋ else ⌊q⌋ + 1

/-- Embedding of `round(x, 3)`. -/
def roundTo3 (q : ℚ) : ℚ := (roundHalfEven (q * 1000) : ℚ) / 1000

/-- One per-field record of the returned metrics dictionary: the counters
plus the derived `precision`, `recall`, `f1`, `accuracy`. -/
structure FieldMetrics where
  TP : Nat
  FP : Nat
  FN : Nat
  precision : ℚ
  recall' : ℚ
  f1 : ℚ
  accuracy : ℚ

/-- Embedding of `_precision_recall`, `_f1` and `_accuracy` followed by the
`round(·, 3)` reporting step of `evaluate_json_response`. -/
def deriveField (c : Counters) : FieldMetrics :=
  let prec : ℚ := if c.TP + c.FP ≠ 0 then (c.TP : ℚ) / ((c.TP : ℚ) + (c.FP : ℚ)) else 0
  let reca : ℚ := if c.TP + c.FN ≠ 0 then (c.TP : ℚ) / ((c.TP : ℚ) + (c.FN : ℚ)) else 0
  let f1v : ℚ := if prec + reca ≠ 0 then 2 * prec * reca / (prec + reca) else 0
  let accv : ℚ :=
    if c.TP + c.FP + c.FN ≠ 0 then (c.TP : ℚ) / ((c.TP : ℚ) + (c.FP : ℚ) + (c.FN : ℚ)) else 0
  { TP := c.TP, FP := c.FP, FN := c.FN,
    precision := roundTo3 prec, recall' := roundTo3 reca,
    f1 := roundTo3 f1v, accuracy := roundTo3 accv }

/-- The final metrics dictionary returned by `evaluate_json_response`. -/
structure PageMetrics where
  page_number : FieldMetrics
  deanery : FieldMetrics
  parish : FieldMetrics
  dedication : FieldMetrics
  building_material : FieldMetrics

def PageMetrics.get (m : PageMetrics) : MField → FieldMetrics
  | .page_number => m.page_number
  | .deanery => m.deanery
  | .parish => m.parish
  | .dedication => m.dedication
  | .building_material => m.building_material

/-- The `for fld in metrics:` loop filling precision/recall/f1/accuracy. -/
def finalize (m : CAcc) : PageMetrics :=
  { page_number := deriveField m.page_number, deanery := deriveField m.deanery,
    parish := deriveField m.parish, dedication := deriveField m.dedication,
    building_material := deriveField m.building_material }

/-- Embedding of `evaluate_json_response(pred_json, gt_json, fuzzy_threshold,
scorer)` with the default `entry_fields`; `none` models a raised exception. -/
def evaluateJsonResponse (scorer : Scorer) (thr : Nat) (pred gtj : Page) :
    Option PageMetrics :=
  (evaluateCounters scorer thr pred gtj).map finalize

/-- A concrete scorer instance used for counterexamples and witnesses:
100 for equal strings, 0 otherwise (a legitimate value of the `scorer`
parameter). -/
def exactScorer : Scorer := fun a b => if a = b then 100 else 0

/-- Words of the feedback input of the span-assembly idempotence property:
the texts of the spans, one token each. -/
def feedbackWords (sps : List (Option String × String)) : List String := sps.map Prod.snd

/-- Labels of the feedback input: one single-token `"B-" + entity_type` tag
per span (a `none` entity type is rendered as the empty type). -/
def feedbackLabels (sps : List (Option String × String)) : List String :=
  sps.map (fun s => "B-" ++ s.1.getD "")

/-- Test for a span of entity type `parish`. -/
def isParishSpan (s : Option String × String) : Bool := s.1 == some "parish"

/-- Decidable form of the condition that no label is malformed: every label
other than `"O"` contains the `-` separator. -/
def noMalformed (labels : List String) : Bool :=
  labels.all (fun l => l == "O" || hasDash l)

/-- Decidable form of the condition that every word is non-empty. -/
def allNonEmpty (words : List String) : Bool := words.all (fun w => w != "")

/-- Parish true-positive count of an evaluation result, used to compare two
metric dictionaries at a specific field. -/
def parishTPOf (r : Option PageMetrics) : Option Nat := r.map (fun m => m.parish.TP)

/-- The normalization of the spec applied to every present text field of an
entry. -/
def normalizeEntryFields (e : Entry) : Entry :=
  ⟨e.parish.map (fun s => normalizeText (some s)),
   e.dedication.map (fun s => normalizeText (some s)),
   e.building_material.map (fun s => normalizeText (some s))⟩

/-- The normalization of the spec applied to the entry text fields of a page. -/
def normalizePageEntries (p : Page) : Page :=
  { p with entries := p.entries.map normalizeEntryFields }

/-- Prediction page whose only entry has the parish in upper case. -/
def pagePredUpper : Page := ⟨none, none, [⟨some "ABC", none, none⟩]⟩

/-- Ground-truth page whose only entry has the parish in lower case. -/
def pageGtLower : Page := ⟨none, none, [⟨some "abc", none, none⟩]⟩

/-- Prediction page with two entries carrying the same parish string. -/
def pagePredDup : Page := ⟨none, none, [⟨some "a", some "x", none⟩, ⟨some "a", some "y", none⟩]⟩

/-- Ground-truth page with two entries carrying the same parish string. -/
def pageGtDup : Page := ⟨none, none, [⟨some "a", none, none⟩, ⟨some "a", none, none⟩]⟩

/-- Prediction page with a single entry. -/
def pagePredOne : Page := ⟨none, none, [⟨some "a", none, none⟩]⟩

/-- Ground-truth page with a single entry. -/
def pageGtOne : Page := ⟨none, none, [⟨some "a", none, none⟩]⟩

/-- Prediction page carrying only a page number. -/
def pagePredPnum : Page := ⟨some "5", none, []⟩

/-- Completely empty page. -/
def pageEmpty : Page := ⟨none, none, []⟩

/-- The counter dictionary produced by comparing `pagePredPnum` against
`pageEmpty`: one false positive on `page_number`. -/
def cAccPnumFP : CAcc := ⟨⟨0, 1, 0⟩, ⟨0, 0, 0⟩, ⟨0, 0, 0⟩, ⟨0, 0, 0⟩, ⟨0, 0, 0⟩⟩

/-- The counter dictionary produced by comparing `pagePredOne` against
`pageGtOne`: one true positive on `parish`. -/
def cAccOneMatch : CAcc := ⟨⟨0, 0, 0⟩, ⟨0, 0, 0⟩, ⟨1, 0, 0⟩, ⟨0, 0, 0⟩, ⟨0, 0, 0⟩⟩

/-- Sanity check of the embedding against the first concrete scenario of the
documentation: the Czermin page builds the expected record. -/
theorem buildPageJson_first_scenario :
    (buildPageJson ["41", "Czermin", "mur.", "S.", "Clementem"] []
      ["B-page_number", "B-parish", "B-building_material", "B-dedication", "I-dedication"]) =
    { page_number := some "41", deanery := none,
      entries := [⟨some "Czermin", some "S. Clementem", some "mur."⟩] } := by decide

/-! Supporting lemmas. -/

/-- Character list of a feedback label `"B-" ++ t`. -/
theorem toList_BB (t : String) : ("B-" ++ t).toList = 'B' :: '-' :: t.toList := by
  simp [String.toList, String.data_append]

/-- A feedback label is never the `"O"` tag. -/
theorem BB_ne_O (t : String) : ("B-" ++ t) ≠ "O" := by
  intro h
  have h2 := congrArg String.toList h
  rw [toList_BB] at h2
  simp at h2

/-- A feedback label always contains the separator. -/
theorem hasDash_BB (t : String) : hasDash ("B-" ++ t) = true := by
  simp [hasDash, toList_BB]

/-- Splitting a feedback label recovers the prefix letter and the type. -/
theorem splitTag_BB (t : String) : splitTag ("B-" ++ t) = ("B", t) := by
  unfold splitTag
  rw [toList_BB]
  rw [List.takeWhile_cons_of_pos (by decide), List.takeWhile_cons_of_neg (by decide)]
  rw [List.dropWhile_cons_of_pos (by decide), List.dropWhile_cons_of_neg (by decide)]
  rfl

/-- Running the span state machine over a pure `B-` tagged stream flushes the
open buffer and then emits one span per input pair. -/
theorem bioToSpansAux_feedback (sps : List (String × String)) :
    ∀ (buff : List String) (entType : Option String), buff ≠ [] →
    bioToSpansAux buff entType (sps.map (fun s => (s.2, "B-" ++ s.1))) =
      (entType, joinSpace buff) :: sps.map (fun s => (some s.1, s.2)) := by
  induction sps with
  | nil =>
      intro buff ent hb
      cases buff with
      | nil => exact absurd rfl hb
      | cons b bs => rfl
  | cons hd tl ih =>
      intro buff ent hb
      cases buff with
      | nil => exact absurd rfl hb
      | cons b bs =>
          simp only [List.map_cons, bioToSpansAux]
          rw [if_neg (BB_ne_O hd.1)]
          rw [splitTag_BB]
          rw [if_neg (by simp [hasDash_BB])]
          rw [if_pos (Or.inl rfl)]
          simp only [List.isEmpty_cons, if_neg]
          rw [ih [hd.2] (some hd.1) (by simp)]
          rfl

/-- Span assembly over a single-token `B-` tagged stream reproduces each
(type, text) pair as one span. -/
theorem bioToSpans_feedback (sps : List (String × String)) :
    bioToSpans (sps.map (fun s => s.2)) (sps.map (fun s => "B-" ++ s.1)) =
      sps.map (fun s => (some s.1, s.2)) := by
  unfold bioToSpans
  rw [List.zip_map']
  cases sps with
  | nil => rfl
  | cons hd tl =>
      simp only [List.map_cons, bioToSpansAux]
      rw [if_neg (BB_ne_O hd.1)]
      rw [splitTag_BB]
      rw [if_neg (by simp [hasDash_BB])]
      rw [if_pos (Or.inl rfl)]
      simp only [List.isEmpty_nil, if_pos]
      rw [bioToSpansAux_feedback tl [hd.2] (some hd.1) (by simp)]
      rfl

/-- Feeding back any span list whose entity types are all present reproduces
it. -/
theorem feedback_getD (sps : List (Option String × String)) (h : ∀ s ∈ sps, s.1 ≠ none) :
    bioToSpans (feedbackWords sps) (feedbackLabels sps) = sps := by
  have h2 := bioToSpans_feedback (sps.map (fun s => (s.1.getD "", s.2)))
  simp only [List.map_map, Function.comp_def] at h2
  unfold feedbackWords feedbackLabels
  rw [show (List.map Prod.snd sps) = (List.map (fun s => s.2) sps) from rfl]
  rw [h2]
  conv_rhs => rw [← List.map_id sps]
  apply List.map_congr_left
  intro s hs
  obtain ⟨fst, snd⟩ := s
  cases fst with
  | none => exact absurd rfl (h _ hs)
  | some a => rfl

/-- An `iAfterO` issue produced at loop position `j` carries position `j` and
only arises for `0 < j`. -/
theorem iAfterO_of_issuesAt (labels : List String) (j p : Nat) (lab : String)
    (h : Issue.iAfterO p lab ∈ issuesAt labels j) : p = j ∧ 0 < j := by
  simp only [issuesAt] at h
  split at h
  · simp at h
  · split at h
    · simp at h
    · rw [List.mem_append] at h
      rcases h with h | h
      · split at h <;> simp at h
      · split at h
        · rename_i hguard
          split at h
          · simp at h
            exact ⟨h.1, hguard.2⟩
          · split at h
            · split at h <;> simp at h
            · simp at h
        · simp at h

/-- Projection of the `parish` counters out of the counter dictionary. -/
theorem CAcc.get_parish (m : CAcc) : m.get .parish = m.parish := rfl

/-- Updating one field leaves every other field's counters unchanged. -/
theorem CAcc.get_update_ne (m : CAcc) (f g : MField) (a b c : Nat) (h : g ≠ f) :
    (m.update f a b c).get g = m.get g := by
  cases f <;> cases g <;> first | rfl | exact absurd rfl h

/-- The false-negative loop over `entry_fields` adds one FN to `parish`. -/
theorem fnFold_parish (m : CAcc) :
    (entryFields.foldl (fun m2 f => m2.update f 0 0 1) m).get .parish =
      (m.get .parish).add 0 0 1 := rfl

/-- The false-positive loop over `entry_fields` adds one FP to `parish`. -/
theorem fpFold_parish (m : CAcc) :
    (entryFields.foldl (fun m2 f => m2.update f 0 1 0) m).get .parish =
      (m.get .parish).add 0 1 0 := rfl

/-- A field comparison on a field other than `g` leaves `g`'s counters
unchanged. -/
theorem cmpVals_get_ne (scorer : Scorer) (thr : Nat) (m : CAcc) (f g : MField)
    (gtv predv : String) (h : g ≠ f) :
    (cmpVals scorer thr m f gtv predv).get g = m.get g := by
  unfold cmpVals
  split
  · split
    · exact CAcc.get_update_ne m f g 0 1 0 h
    · rfl
  · split
    · exact CAcc.get_update_ne m f g 0 0 1 h
    · split
      · exact CAcc.get_update_ne m f g 1 0 0 h
      · exact CAcc.get_update_ne m f g 0 1 1 h

/-- Scoring the non-parish entry fields of a matched pair leaves the `parish`
counters unchanged. -/
theorem cmpFold_parish (scorer : Scorer) (thr : Nat) (m : CAcc) (gtE bestPred : Entry) :
    ((entryFields.drop 1).foldl
      (fun acc f => cmpVals scorer thr acc f ((gtE.getF f).getD "") ((bestPred.getF f).getD ""))
      m).get .parish = m.get .parish := by
  show ((cmpVals scorer thr (cmpVals scorer thr m .dedication _ _)
    .building_material _ _)).get .parish = m.get .parish
  rw [cmpVals_get_ne _ _ _ _ _ _ _ (by decide), cmpVals_get_ne _ _ _ _ _ _ _ (by decide)]

/-- Updating the `parish` field adds to the `parish` counters. -/
theorem update_parish_get (m : CAcc) (a b c : Nat) :
    (m.update .parish a b c).get .parish = (m.get .parish).add a b c := rfl

/-- The page-level comparisons leave the `parish` counters at zero. -/
theorem pagePair_parish (scorer : Scorer) (thr : Nat) (a b c d : String) :
    (cmpVals scorer thr (cmpVals scorer thr initAcc .page_number a b) .deanery c d).get
      .parish = initCounters := by
  rw [cmpVals_get_ne _ _ _ _ _ _ _ (by decide), cmpVals_get_ne _ _ _ _ _ _ _ (by decide)]
  rfl

/-- The final leftover loop adds one `parish` FP per leftover pool element. -/
theorem leftoverFold_parish : ∀ (l : List (Option String)) (m : CAcc),
    ((l.foldl (fun m3 _ => entryFields.foldl (fun m2 f => m2.update f 0 1 0) m3) m).get
        .parish) =
      ⟨(m.get .parish).TP, (m.get .parish).FP + l.length, (m.get .parish).FN⟩ := by
  intro l
  induction l with
  | nil => intro m; rfl
  | cons hd tl ih =>
      intro m
      rw [List.foldl_cons, ih, fpFold_parish]
      simp only [Counters.add, List.length_cons, Counters.mk.injEq]
      refine ⟨rfl, by omega, rfl⟩


theorem extractBestGo_mem (scorer : Scorer) (q : String) :
    ∀ (l : List (Option String)) (i : Nat) (best : Option (String × Nat × Nat))
      (n : String) (sc j : Nat),
      extractBestGo scorer q l i best = some (n, sc, j) →
      some n ∈ l ∨ best = some (n, sc, j) := by
  intro l
  induction l with
  | nil => intro i best n sc j h; exact Or.inr h
  | cons hd tl ih =>
      intro i best n sc j h
      cases hd with
      | none =>
          rcases ih (i + 1) best n sc j h with h2 | h2
          · exact Or.inl (List.mem_cons_of_mem _ h2)
          · exact Or.inr h2
      | some c =>
          cases best with
          | none =>
              simp only [extractBestGo] at h
              rcases ih (i + 1) (some (c, scorer q c, i)) n sc j h with h2 | h2
              · exact Or.inl (List.mem_cons_of_mem _ h2)
              · rw [Option.some.injEq, Prod.mk.injEq] at h2
                exact Or.inl (by rw [h2.1]; exact List.mem_cons_self _ _)
          | some b =>
              obtain ⟨bc, bsc, bi⟩ := b
              simp only [extractBestGo] at h
              split at h
              · rcases ih (i + 1) (some (c, scorer q c, i)) n sc j h with h2 | h2
                · exact Or.inl (List.mem_cons_of_mem _ h2)
                · rw [Option.some.injEq, Prod.mk.injEq] at h2
                  exact Or.inl (by rw [h2.1]; exact List.mem_cons_self _ _)
              · rcases ih (i + 1) (some (bc, bsc, bi)) n sc j h with h2 | h2
                · exact Or.inl (List.mem_cons_of_mem _ h2)
                · exact Or.inr h2

theorem extractOne_mem (scorer : Scorer) (thr : Nat) (q : Option String)
    (choices : List (Option String)) (n : String) (sc j : Nat)
    (h : extractOne scorer thr q choices = some (n, sc, j)) : some n ∈ choices := by
  unfold extractOne at h
  rcases q with _ | qv
  · simp at h
  · have h1 : (match extractBestGo scorer qv choices 0 none with
        | none => none
        | some (c, sc2, i2) => if thr ≤ sc2 then some (c, sc2, i2) else none) =
        some (n, sc, j) := h
    rcases hb : extractBestGo scorer qv choices 0 none with _ | ⟨c, csc, ci⟩
    · rw [hb] at h1
      simp at h1
    · rw [hb] at h1
      have h2 : (if thr ≤ csc then some (c, csc, ci) else none) = some (n, sc, j) := h1
      split at h2
      · rw [Option.some.injEq, Prod.mk.injEq] at h2
        rcases extractBestGo_mem scorer qv choices 0 none c csc ci hb with h3 | h3
        · rw [← h2.1]; exact h3
        · simp at h3
      · simp at h2

theorem findEntryIdx_spec : ∀ (l : List Entry) (n : String) (e : Entry) (i : Nat),
    findEntryIdx l n = some (e, i) → l[i]? = some e ∧ e.parish = some n := by
  intro l
  induction l with
  | nil => intro n e i h; simp [findEntryIdx] at h
  | cons hd tl ih =>
      intro n e i h
      simp only [findEntryIdx] at h
      split at h
      · rename_i hp
        rw [Option.some.injEq, Prod.mk.injEq] at h
        obtain ⟨he, hi⟩ := h
        rw [← hi, ← he]
        exact ⟨by simp, hp⟩
      · rw [Option.map_eq_some'] at h
        obtain ⟨⟨e2, i2⟩, h2, h3⟩ := h
        simp only [Prod.mk.injEq] at h3
        obtain ⟨he, hi⟩ := h3
        obtain ⟨hg, hp⟩ := ih n e2 i2 h2
        rw [← hi, ← he]
        exact ⟨by simpa using hg, hp⟩

theorem findEntryIdx_isSome (l : List Entry) (n : String)
    (h : ∃ e ∈ l, e.parish = some n) : (findEntryIdx l n).isSome = true := by
  induction l with
  | nil => simp at h
  | cons hd tl ih =>
      simp only [findEntryIdx]
      split
      · rfl
      · rename_i hne
        rcases h with ⟨e, he, hp⟩
        rcases List.mem_cons.mp he with rfl | he2
        · exact absurd hp hne
        · rw [Option.isSome_map']
          exact ih ⟨e, he2, hp⟩

theorem matchLoop_some (scorer : Scorer) (thr : Nat) (predE : List Entry) :
    ∀ (gts : List Entry) (m : CAcc) (av : List (Option String)) (tr : List Nat),
      (∀ x ∈ av, x ∈ predE.map (fun e => e.parish)) →
      (matchLoop scorer thr predE m av tr gts).isSome = true := by
  intro gts
  induction gts with
  | nil => intro m av tr hsub; rfl
  | cons gtE rest ih =>
      intro m av tr hsub
      simp only [matchLoop]
      split
      · exact ih _ _ _ hsub
      · rename_i r n sc j hx
        have hmem : some n ∈ av := extractOne_mem _ _ _ _ _ _ _ hx
        have hmap := hsub _ hmem
        rw [List.mem_map] at hmap
        obtain ⟨e, he, hpe⟩ := hmap
        have hfs := findEntryIdx_isSome predE n ⟨e, he, hpe⟩
        split
        · rename_i hfe
          rw [hfe] at hfs
          simp at hfs
        · rename_i p hfe
          rw [if_pos hmem]
          exact ih _ _ _ (fun x hx2 => hsub x (List.mem_of_mem_erase hx2))

theorem matchLoop_parish (scorer : Scorer) (thr : Nat) (predE : List Entry) :
    ∀ (gts : List Entry) (m : CAcc) (av : List (Option String)) (tr : List Nat)
      (m2 : CAcc) (av2 : List (Option String)) (tr2 : List Nat),
      matchLoop scorer thr predE m av tr gts = some (m2, av2, tr2) →
      (m2.get .parish).TP + (m2.get .parish).FN =
        (m.get .parish).TP + (m.get .parish).FN + gts.length ∧
      (m2.get .parish).TP + av2.length = (m.get .parish).TP + av.length ∧
      (m2.get .parish).FP = (m.get .parish).FP := by
  intro gts
  induction gts with
  | nil =>
      intro m av tr m2 av2 tr2 h
      have h2 : some (m, av, tr) = some (m2, av2, tr2) := h
      simp only [Option.some.injEq, Prod.mk.injEq] at h2
      obtain ⟨hm, hav, htr⟩ := h2
      subst hm
      subst hav
      simp
  | cons gtE rest ih =>
      intro m av tr m2 av2 tr2 h
      simp only [matchLoop] at h
      split at h
      · have h3 := ih _ _ _ _ _ _ h
        simp only [fnFold_parish, Counters.add] at h3
        obtain ⟨ha, hb2, hc⟩ := h3
        refine ⟨?_, ?_, ?_⟩ <;> (try rw [List.length_cons]) <;> omega
      · rename_i r n sc j hx
        split at h
        · simp at h
        · rename_i p hfe
          split at h
          · rename_i hmem
            have h3 := ih _ _ _ _ _ _ h
            rw [cmpFold_parish, update_parish_get] at h3
            simp only [Counters.add] at h3
            have hlen : (av.erase (some n)).length = av.length - 1 :=
              List.length_erase_of_mem hmem
            have hpos : 0 < av.length := List.length_pos_of_mem hmem
            obtain ⟨ha, hb2, hc⟩ := h3
            refine ⟨?_, ?_, ?_⟩ <;> (try rw [List.length_cons]) <;> omega
          · simp at h

theorem matchLoop_trace (scorer : Scorer) (thr : Nat) (predE : List Entry) :
    ∀ (gts : List Entry) (m : CAcc) (av : List (Option String)) (tr : List Nat)
      (m2 : CAcc) (av2 : List (Option String)) (tr2 : List Nat),
      matchLoop scorer thr predE m av tr gts = some (m2, av2, tr2) →
      ∃ trN, tr2 = tr ++ trN ∧
        (av.Nodup → trN.Nodup ∧
          ∀ i ∈ trN, ∃ n e, some n ∈ av ∧ findEntryIdx predE n = some (e, i)) := by
  intro gts
  induction gts with
  | nil =>
      intro m av tr m2 av2 tr2 h
      have h2 : some (m, av, tr) = some (m2, av2, tr2) := h
      simp only [Option.some.injEq, Prod.mk.injEq] at h2
      refine ⟨[], by simp [h2.2.2.symm], fun _ => ⟨List.nodup_nil, by simp⟩⟩
  | cons gtE rest ih =>
      intro m av tr m2 av2 tr2 h
      simp only [matchLoop] at h
      split at h
      · exact ih _ _ _ _ _ _ h
      · rename_i r n sc j hx
        split at h
        · simp at h
        · rename_i e0 i0 hfe
          split at h
          · rename_i hmem
            obtain ⟨trN2, htr2, hprops⟩ := ih _ _ _ _ _ _ h
            refine ⟨i0 :: trN2, by simp [htr2], ?_⟩
            intro hnd
            obtain ⟨hndN, hmemN⟩ := hprops (hnd.erase _)
            constructor
            · rw [List.nodup_cons]
              refine ⟨?_, hndN⟩
              intro hin
              obtain ⟨n2, e2, hn2av, hfi2⟩ := hmemN i0 hin
              have s1 := findEntryIdx_spec predE n2 e2 i0 hfi2
              have s2 := findEntryIdx_spec predE n e0 i0 hfe
              have he : e2 = e0 := Option.some.inj (s1.1.symm.trans s2.1)
              rw [he] at s1
              have hn : n2 = n := Option.some.inj (s1.2.symm.trans s2.2)
              rw [hn] at hn2av
              exact absurd hn2av (by simp [List.Nodup.mem_erase_iff hnd])
            · intro i hi
              rcases List.mem_cons.mp hi with rfl | hi2
              · exact ⟨n, e0, hmem, hfe⟩
              · obtain ⟨n2, e2, hn2av, hfi2⟩ := hmemN i hi2
                exact ⟨n2, e2, List.mem_of_mem_erase hn2av, hfi2⟩
          · simp at h

theorem roundTo3_zero : roundTo3 0 = 0 := by
  unfold roundTo3 roundHalfEven
  norm_num

theorem roundTo3_bounds (q : ℚ) (h0 : 0 ≤ q) (h1 : q ≤ 1) :
    0 ≤ roundTo3 q ∧ roundTo3 q ≤ 1 := by
  have key : ∀ r : ℤ, 0 ≤ r → r ≤ 1000 → 0 ≤ (r : ℚ) / 1000 ∧ (r : ℚ) / 1000 ≤ 1 := by
    intro r hr0 hr1
    constructor
    · positivity
    · rw [div_le_one (by norm_num)]
      exact_mod_cast hr1
  have hf0 : (0 : ℤ) ≤ ⌊q * 1000⌋ := Int.floor_nonneg.mpr (by positivity)
  have hq1000 : q * 1000 ≤ 1000 := by nlinarith
  have hfu : ⌊q * 1000⌋ ≤ 1000 := by
    calc ⌊q * 1000⌋ ≤ ⌊(1000 : ℚ)⌋ := Int.floor_le_floor hq1000
    _ = 1000 := by norm_num
  have hup : ¬(q * 1000 - ⌊q * 1000⌋ < 1 / 2) → ⌊q * 1000⌋ + 1 ≤ 1000 := by
    intro hc
    push_neg at hc
    have hlt : (⌊q * 1000⌋ : ℚ) ≤ 1999 / 2 := by linarith
    by_contra hcon
    push_neg at hcon
    have h2 : (1000 : ℤ) ≤ ⌊q * 1000⌋ := by omega
    have h3 : ((1000 : ℤ) : ℚ) ≤ (⌊q * 1000⌋ : ℚ) := by exact_mod_cast h2
    norm_num at h3
    linarith
  unfold roundTo3 roundHalfEven
  split
  · exact key _ hf0 hfu
  · rename_i hc
    split
    · exact key _ (by omega) (hup hc)
    · split
      · exact key _ hf0 hfu
      · exact key _ (by omega) (hup hc)

theorem deriveField_props (c : Counters) :
    (0 ≤ (deriveField c).precision ∧ (deriveField c).precision ≤ 1) ∧
    (0 ≤ (deriveField c).recall' ∧ (deriveField c).recall' ≤ 1) ∧
    (0 ≤ (deriveField c).f1 ∧ (deriveField c).f1 ≤ 1) ∧
    (0 ≤ (deriveField c).accuracy ∧ (deriveField c).accuracy ≤ 1) ∧
    (c.TP + c.FP = 0 → (deriveField c).precision = 0) ∧
    (c.TP + c.FN = 0 → (deriveField c).recall' = 0) ∧
    (c.TP = 0 → (deriveField c).f1 = 0) ∧
    (c.TP + c.FP + c.FN = 0 → (deriveField c).accuracy = 0) := by
  obtain ⟨tp, fp, fn⟩ := c
  simp only [deriveField]
  have hratio : ∀ a b : Nat,
      (0 ≤ (if a + b ≠ 0 then (a : ℚ) / ((a : ℚ) + (b : ℚ)) else 0) ∧
       (if a + b ≠ 0 then (a : ℚ) / ((a : ℚ) + (b : ℚ)) else 0) ≤ 1) := by
    intro a b
    by_cases h : a + b ≠ 0
    · rw [if_pos h]
      have hpos : (0 : ℚ) < (a : ℚ) + (b : ℚ) := by
        have h2 : 0 < a + b := Nat.pos_of_ne_zero h
        exact_mod_cast h2
      refine ⟨by positivity, ?_⟩
      rw [div_le_one hpos]
      have h3 : a ≤ a + b := Nat.le_add_right _ _
      exact_mod_cast h3
    · rw [if_neg h]
      norm_num
  have hp := hratio tp fp
  have hr := hratio tp fn
  have hacc : 0 ≤ (if tp + fp + fn ≠ 0 then (tp : ℚ) / ((tp : ℚ) + (fp : ℚ) + (fn : ℚ)) else 0) ∧
      (if tp + fp + fn ≠ 0 then (tp : ℚ) / ((tp : ℚ) + (fp : ℚ) + (fn : ℚ)) else 0) ≤ 1 := by
    by_cases h : tp + fp + fn ≠ 0
    · rw [if_pos h]
      have hpos : (0 : ℚ) < (tp : ℚ) + (fp : ℚ) + (fn : ℚ) := by
        have h2 : 0 < tp + fp + fn := Nat.pos_of_ne_zero h
        exact_mod_cast h2
      refine ⟨by positivity, ?_⟩
      rw [div_le_one hpos]
      have h3 : tp ≤ tp + fp + fn := by omega
      exact_mod_cast h3
    · rw [if_neg h]
      norm_num
  have hf : 0 ≤ (if (if tp + fp ≠ 0 then (tp : ℚ) / ((tp : ℚ) + (fp : ℚ)) else 0) +
        (if tp + fn ≠ 0 then (tp : ℚ) / ((tp : ℚ) + (fn : ℚ)) else 0) ≠ 0 then
        2 * (if tp + fp ≠ 0 then (tp : ℚ) / ((tp : ℚ) + (fp : ℚ)) else 0) *
          (if tp + fn ≠ 0 then (tp : ℚ) / ((tp : ℚ) + (fn : ℚ)) else 0) /
          ((if tp + fp ≠ 0 then (tp : ℚ) / ((tp : ℚ) + (fp : ℚ)) else 0) +
           (if tp + fn ≠ 0 then (tp : ℚ) / ((tp : ℚ) + (fn : ℚ)) else 0)) else 0) ∧
      (if (if tp + fp ≠ 0 then (tp : ℚ) / ((tp : ℚ) + (fp : ℚ)) else 0) +
        (if tp + fn ≠ 0 then (tp : ℚ) / ((tp : ℚ) + (fn : ℚ)) else 0) ≠ 0 then
        2 * (if tp + fp ≠ 0 then (tp : ℚ) / ((tp : ℚ) + (fp : ℚ)) else 0) *
          (if tp + fn ≠ 0 then (tp : ℚ) / ((tp : ℚ) + (fn : ℚ)) else 0) /
          ((if tp + fp ≠ 0 then (tp : ℚ) / ((tp : ℚ) + (fp : ℚ)) else 0) +
           (if tp + fn ≠ 0 then (tp : ℚ) / ((tp : ℚ) + (fn : ℚ)) else 0)) else 0) ≤ 1 := by
    set pv := (if tp + fp ≠ 0 then (tp : ℚ) / ((tp : ℚ) + (fp : ℚ)) else 0) with hpv
    set rv := (if tp + fn ≠ 0 then (tp : ℚ) / ((tp : ℚ) + (fn : ℚ)) else 0) with hrv
    by_cases h : pv + rv ≠ 0
    · rw [if_pos h]
      have hpos : 0 < pv + rv := lt_of_le_of_ne (by linarith [hp.1, hr.1]) (Ne.symm h)
      refine ⟨by positivity, ?_⟩
      rw [div_le_one hpos]
      nlinarith [hp.1, hp.2, hr.1, hr.2]
    · rw [if_neg h]
      norm_num
  refine ⟨⟨(roundTo3_bounds _ hp.1 hp.2).1, (roundTo3_bounds _ hp.1 hp.2).2⟩,
    ⟨(roundTo3_bounds _ hr.1 hr.2).1, (roundTo3_bounds _ hr.1 hr.2).2⟩,
    ⟨(roundTo3_bounds _ hf.1 hf.2).1, (roundTo3_bounds _ hf.1 hf.2).2⟩,
    ⟨(roundTo3_bounds _ hacc.1 hacc.2).1, (roundTo3_bounds _ hacc.1 hacc.2).2⟩,
    ?_, ?_, ?_, ?_⟩
  · intro h0
    rw [if_neg (by omega)]
    exact roundTo3_zero
  · intro h0
    rw [if_neg (by omega)]
    exact roundTo3_zero
  · intro h0
    have hpz : (if tp + fp ≠ 0 then (tp : ℚ) / ((tp : ℚ) + (fp : ℚ)) else 0) = 0 := by
      by_cases h : tp + fp ≠ 0
      · rw [if_pos h, h0]
        norm_num
      · rw [if_neg h]
    have hrz : (if tp + fn ≠ 0 then (tp : ℚ) / ((tp : ℚ) + (fn : ℚ)) else 0) = 0 := by
      by_cases h : tp + fn ≠ 0
      · rw [if_pos h, h0]
        norm_num
      · rw [if_neg h]
    rw [hpz, hrz]
    rw [if_neg (by norm_num)]
    exact roundTo3_zero
  · intro h0
    rw [if_neg (by omega)]
    exact roundTo3_zero

theorem finalize_get (C : CAcc) (f : MField) : (finalize C).get f = deriveField (C.get f) := by
  cases f <;> rfl

theorem joinSpace_ne (l : List String) (hne : l ≠ []) (hall : ∀ w ∈ l, w ≠ "") :
    joinSpace l ≠ "" := by
  match l with
  | [] => exact absurd rfl hne
  | [w] => exact hall w (List.mem_singleton.mpr rfl)
  | a :: b :: r =>
      intro hcon
      have hlen := congrArg String.length hcon
      rw [show joinSpace (a :: b :: r) = a ++ " " ++ joinSpace (b :: r) from rfl] at hlen
      rw [String.length_append, String.length_append] at hlen
      rw [show (" " : String).length = 1 from rfl, show ("" : String).length = 0 from rfl] at hlen
      omega

theorem bioToSpansAux_texts : ∀ (pairs : List (String × String)) (buff : List String)
    (ent : Option String), (∀ p ∈ pairs, p.1 ≠ "") → (∀ b ∈ buff, b ≠ "") →
    ∀ s ∈ bioToSpansAux buff ent pairs, s.2 ≠ "" := by
  intro pairs
  induction pairs with
  | nil =>
      intro buff ent hp hb s hs
      cases buff with
      | nil => simp [bioToSpansAux] at hs
      | cons b bs =>
          simp [bioToSpansAux] at hs
          rw [hs]
          exact joinSpace_ne _ (by simp) hb
  | cons hd tl ih =>
      intro buff ent hp hb s hs
      have hp2 : ∀ p ∈ tl, p.1 ≠ "" := fun p h2 => hp p (List.mem_cons_of_mem _ h2)
      have hhd : hd.1 ≠ "" := hp hd (List.mem_cons_self _ _)
      obtain ⟨w, tag⟩ := hd
      simp only [bioToSpansAux] at hs
      split at hs
      · split at hs
        · exact ih buff ent hp2 hb s hs
        · rename_i hbe
          rcases List.mem_cons.mp hs with rfl | hs2
          · exact joinSpace_ne _ (by simpa using hbe) hb
          · exact ih [] none hp2 (by simp) s hs2
      · split at hs
        · exact ih buff ent hp2 hb s hs
        · split at hs
          · split at hs
            · exact ih [w] _ hp2 (by simpa using hhd) s hs
            · rename_i hbe
              rcases List.mem_cons.mp hs with rfl | hs2
              · exact joinSpace_ne _ (by simpa using hbe) hb
              · exact ih [w] _ hp2 (by simpa using hhd) s hs2
          · refine ih (buff ++ [w]) ent hp2 ?_ s hs
            intro b hbm
            rcases List.mem_append.mp hbm with h2 | h2
            · exact hb b h2
            · rw [List.mem_singleton.mp h2]
              exact hhd

theorem buildStep_count (st : BuildState) (s : Option String × String)
    (h : isParishSpan s = true → s.2 ≠ "") :
    (buildStep st s).entries.length +
      (if pyTruthy (buildStep st s).current.parish = true then 1 else 0) =
    st.entries.length + (if pyTruthy st.current.parish = true then 1 else 0) +
      (if isParishSpan s then 1 else 0) := by
  unfold buildStep
  split
  · rename_i hc
    have hPf : isParishSpan s = false := by unfold isParishSpan; rw [hc]; rfl
    simp [hPf]
  · split
    · rename_i hc
      have hPf : isParishSpan s = false := by unfold isParishSpan; rw [hc]; rfl
      simp [hPf]
    · split
      · rename_i hc
        have hP : isParishSpan s = true := by unfold isParishSpan; rw [hc]; rfl
        have hne := h hP
        split
        · rename_i hcur
          simp [hP, pyTruthy, hne, hcur]
        · rename_i hcur
          simp only [Bool.not_eq_true] at hcur
          simp [hP, pyTruthy, hne, hcur]
      · split
        · rename_i hc
          have hPf : isParishSpan s = false := by unfold isParishSpan; rw [hc]; rfl
          simp [hPf]
        · split
          · rename_i hc
            have hPf : isParishSpan s = false := by unfold isParishSpan; rw [hc]; rfl
            simp [hPf]
          · rename_i h1 h2 hc h3 h4
            have hPf : isParishSpan s = false := by
              unfold isParishSpan
              exact beq_eq_false_iff_ne.mpr hc
            simp [hPf]

theorem buildFold_count : ∀ (spans : List (Option String × String)) (st : BuildState),
    (∀ s ∈ spans, isParishSpan s = true → s.2 ≠ "") →
    (spans.foldl buildStep st).entries.length +
      (if pyTruthy (spans.foldl buildStep st).current.parish = true then 1 else 0) =
    st.entries.length + (if pyTruthy st.current.parish = true then 1 else 0) +
      spans.countP isParishSpan := by
  intro spans
  induction spans with
  | nil => intro st hsp; simp
  | cons hd tl ih =>
      intro st hsp
      rw [List.foldl_cons, List.countP_cons]
      have h1 := ih (buildStep st hd) (fun s h2 => hsp s (List.mem_cons_of_mem _ h2))
      rw [h1, buildStep_count st hd (hsp hd (List.mem_cons_self _ _))]
      split <;> omega

theorem pageFromSpans_count (spans : List (Option String × String))
    (h : ∀ s ∈ spans, isParishSpan s = true → s.2 ≠ "") :
    (pageFromSpans spans).entries.length = spans.countP isParishSpan := by
  have h1 := buildFold_count spans ⟨none, none, [], emptyEntry⟩ h
  rw [show pyTruthy (⟨none, none, [], emptyEntry⟩ : BuildState).current.parish = false
    from rfl] at h1
  simp only [Bool.false_eq_true, if_false, List.length_nil, Nat.zero_add, Nat.add_zero] at h1
  simp only [pageFromSpans]
  rw [apply_ite List.length]
  split
  · rename_i hcur
    rw [hcur] at h1
    simp only [if_pos] at h1
    rw [List.length_append, List.length_singleton]
    omega
  · rename_i hcur
    rw [Bool.not_eq_true] at hcur
    rw [hcur] at h1
    simp only [Bool.false_eq_true, if_false, Nat.add_zero] at h1
    omega

theorem sortedInput_mem (words : List String) (bboxes : List BBox) (labels : List String)
    (hlen : words.length = labels.length) :
    (∀ x ∈ (sortedInput words bboxes labels).1, x ∈ words) ∧
    (∀ x ∈ (sortedInput words bboxes labels).2, x ∈ labels) := by
  unfold sortedInput sortByLayout
  split
  · exact ⟨fun x h => h, fun x h => h⟩
  · split
    · exact ⟨fun x h => h, fun x h => h⟩
    · constructor
      · intro x hx
        rw [List.mem_map] at hx
        obtain ⟨i, hi, hxi⟩ := hx
        have hir : i ∈ List.range words.length :=
          (List.mergeSort_perm (List.range words.length) _).mem_iff.mp hi
        have hlt : i < words.length := List.mem_range.mp hir
        rw [List.getD_eq_getElem words "" hlt] at hxi
        rw [← hxi]
        exact List.getElem_mem _
      · intro x hx
        rw [List.mem_map] at hx
        obtain ⟨i, hi, hxi⟩ := hx
        have hir : i ∈ List.range words.length :=
          (List.mergeSort_perm (List.range words.length) _).mem_iff.mp hi
        have hlt : i < labels.length := hlen ▸ List.mem_range.mp hir
        rw [List.getD_eq_getElem labels "" hlt] at hxi
        rw [← hxi]
        exact List.getElem_mem _

theorem lexLe_trans (a b c : Int × Int) (h1 : lexLe a b = true) (h2 : lexLe b c = true) :
    lexLe a c = true := by
  simp only [lexLe, decide_eq_true_eq] at h1 h2 ⊢
  omega

theorem lexLe_total (a b : Int × Int) : (lexLe a b || lexLe b a) = true := by
  simp only [lexLe, Bool.or_eq_true, decide_eq_true_eq]
  omega

/-! Claim theorems. -/

/-- C1 counterexample: on `["O", "I-parish", "B-parish"]` the two produced
spans are NOT both of entity type `parish` — the dangling `I-` token is
buffered without an entity type, so the first span's type is `none`. -/
theorem c1_spans_not_both_parish :
    (bioToSpans ["w0", "w1", "w2"] ["O", "I-parish", "B-parish"]).map Prod.fst ≠
      [some "parish", some "parish"] := by decide

/-- C1 (amended): for words `[w0, w1, w2]` with labels
`["O", "I-parish", "B-parish"]`, `bio_to_spans` produces exactly two spans —
one consisting of `w1` alone whose entity type is `none` (the tolerated
dangling `I-` tag never sets `ent_type`), and one of type `parish`
consisting of `w2` alone — and `validate_bio_tags` reports exactly the
"I-tag follows O tag" issue at index 1. -/
theorem c1_spans_and_validator (w0 w1 w2 : String) :
    bioToSpans [w0, w1, w2] ["O", "I-parish", "B-parish"] =
      [(none, w1), (some "parish", w2)] ∧
    validateBioTags ["O", "I-parish", "B-parish"] = [Issue.iAfterO 1 "I-parish"] :=
  ⟨rfl, by decide⟩

/-- C1 witness: the amended claim at concrete words. -/
theorem c1_spans_and_validator_witness :
    bioToSpans ["x", "y", "z"] ["O", "I-parish", "B-parish"] =
      [(none, "y"), (some "parish", "z")] ∧
    validateBioTags ["O", "I-parish", "B-parish"] = [Issue.iAfterO 1 "I-parish"] :=
  c1_spans_and_validator "x" "y" "z"

/-- C2 counterexample: `["I-parish"]` is a well-formed `I`-prefixed tag at
position 0, yet `validate_bio_tags` reports no issue at all — the source
guards the check with `i > 0`, so an `I` tag at position 0 is never
reported. -/
theorem c2_no_issue_at_position_zero :
    validateBioTags ["I-parish"] = [] ∧ hasDash "I-parish" = true ∧
      (splitTag "I-parish").1 = "I" := by decide

/-- C2 (amended): `validate_bio_tags` reports the "I-tag follows O tag"
issue at position `i` whenever `labels[i]` is a well-formed `I`-prefixed tag,
`i > 0` and `labels[i-1] = "O"`; it never reports that issue at position 0. -/
theorem c2_i_after_o_reported (labels : List String) (i : Nat) :
    (i < labels.length → hasDash (labels.getD i "") = true →
      (splitTag (labels.getD i "")).1 = "I" → 0 < i → labels.getD (i - 1) "" = "O" →
      Issue.iAfterO i (labels.getD i "") ∈ validateBioTags labels) ∧
    (∀ lab, Issue.iAfterO 0 lab ∉ validateBioTags labels) := by
  constructor
  · intro h1 h2 h3 h4 h5
    unfold validateBioTags
    rw [List.mem_flatMap]
    refine ⟨i, List.mem_range.mpr h1, ?_⟩
    have hO : labels.getD i "" ≠ "O" := by
      intro hq; rw [hq] at h2; exact absurd h2 (by decide)
    simp only [issuesAt]
    rw [if_neg hO]
    rw [if_neg (by rw [h2]; simp)]
    rw [List.mem_append]
    right
    rw [if_pos ⟨h3, h4⟩]
    rw [if_pos h5]
    simp
  · intro lab hmem
    unfold validateBioTags at hmem
    rw [List.mem_flatMap] at hmem
    obtain ⟨j, hj, hin⟩ := hmem
    obtain ⟨hpj, hjpos⟩ := iAfterO_of_issuesAt labels j 0 lab hin
    omega

/-- C2 witness: the amended claim at `["O", "I-parish"]`, position 1. -/
theorem c2_i_after_o_reported_witness :
    (0 : Nat) < 1 ∧
    Issue.iAfterO 1 (["O", "I-parish"].getD 1 "") ∈ validateBioTags ["O", "I-parish"] :=
  ⟨by decide, (c2_i_after_o_reported ["O", "I-parish"] 1).1 (by decide) (by decide)
    (by decide) (by decide) (by decide)⟩

/-- C3 counterexample: the metrics of `evaluate_json_response` are NOT
invariant under normalizing an entry text field — the entry loop compares
the raw `parish`, `dedication` and `building_material` values, with no
`normalize_text` applied (upper-case `"ABC"` against `"abc"` changes the
parish TP count once the prediction is normalized). -/
theorem c3_entry_fields_not_normalized :
    parishTPOf (evaluateJsonResponse exactScorer 80
        (normalizePageEntries pagePredUpper) pageGtLower) ≠
      parishTPOf (evaluateJsonResponse exactScorer 80 pagePredUpper pageGtLower) := by
  decide

/-- C3 (amended): only the page-level scalar fields (`page_number`,
`deanery`) are compared through `normalize_text`; the metrics are invariant
under replacing either input's page-level fields by any values with the same
normalization, while entry text fields are compared raw. -/
theorem c3_page_field_normalization (scorer : Scorer) (thr : Nat) (pred gtj : Page)
    (pn dn gn gd : Option String)
    (h1 : normalizeText pn = normalizeText pred.page_number)
    (h2 : normalizeText dn = normalizeText pred.deanery)
    (h3 : normalizeText gn = normalizeText gtj.page_number)
    (h4 : normalizeText gd = normalizeText gtj.deanery) :
    evaluateJsonResponse scorer thr
      { pred with page_number := pn, deanery := dn }
      { gtj with page_number := gn, deanery := gd } =
    evaluateJsonResponse scorer thr pred gtj := by
  unfold evaluateJsonResponse evaluateCounters evalCore
  simp [h1, h2, h3, h4]

/-- C3 witness: replacing a page number by a variant with equal
normalization (a trailing strip character) does not change the metrics. -/
theorem c3_page_field_normalization_witness :
    normalizeText (some "ab.") = normalizeText (some "ab") ∧
    evaluateJsonResponse exactScorer 80 ⟨some "ab.", none, []⟩ pageEmpty =
      evaluateJsonResponse exactScorer 80 ⟨some "ab", none, []⟩ pageEmpty :=
  ⟨by decide,
    c3_page_field_normalization exactScorer 80 ⟨some "ab", none, []⟩ pageEmpty
      (some "ab.") none none none (by decide) rfl rfl rfl⟩

/-- C4 counterexample: with two predicted entries carrying the same parish
string, both matched ground-truth entries are scored against the SAME first
predicted entry (position 0 twice) — `next(...)` searches the full
`pred_entries` list, not the available pool. -/
theorem c4_duplicate_parish_entry_reused :
    matchTraceOf exactScorer 80 pagePredDup pageGtDup = some [0, 0] ∧
      ¬ ([0, 0] : List Nat).Nodup := ⟨by decide, by decide⟩

/-- C4 (amended): when all predicted parish values are pairwise distinct,
any two distinct matched ground-truth entries are paired with two distinct
predicted entries — the positions of the predicted entries used for field
scoring form a duplicate-free list. -/
theorem c4_distinct_matches (scorer : Scorer) (thr : Nat) (pred gtj : Page)
    (tr : List Nat) (hnd : (pred.entries.map Entry.parish).Nodup)
    (h : matchTraceOf scorer thr pred gtj = some tr) : tr.Nodup := by
  unfold matchTraceOf evalCore at h
  rw [Option.map_eq_some'] at h
  obtain ⟨⟨m2, av2, tr2⟩, hcore, htr⟩ := h
  obtain ⟨trN, htrN, hprops⟩ :=
    matchLoop_trace scorer thr pred.entries gtj.entries _ _ _ _ _ _ hcore
  have hnd2 : (pred.entries.map (fun e => e.parish)).Nodup := hnd
  have h2 := (hprops hnd2).1
  have htr2 : tr2 = tr := htr
  rw [htrN] at htr2
  simp only [List.nil_append] at htr2
  rw [← htr2]
  exact h2

/-- C4 witness: a single distinct-parish match yields a duplicate-free
pairing trace. -/
theorem c4_distinct_matches_witness :
    (pagePredOne.entries.map Entry.parish).Nodup ∧
      matchTraceOf exactScorer 80 pagePredOne pageGtOne = some [0] ∧
      ([0] : List Nat).Nodup :=
  ⟨by decide, by decide,
    c4_distinct_matches exactScorer 80 pagePredOne pageGtOne [0] (by decide) (by decide)⟩

/-- C5: matcher conservation — in every successful `evaluate_json_response`
run, the `parish` counters satisfy `TP + FN = |ground-truth entries|` and
`TP + FP = |predicted entries|` (each match consumes exactly one pool
occurrence, each unmatched ground-truth entry is one FN, each leftover pool
element one FP). -/
theorem c5_matcher_conservation (scorer : Scorer) (thr : Nat) (pred gtj : Page)
    (C : CAcc) (h : evaluateCounters scorer thr pred gtj = some C) :
    (finalize C).parish.TP + (finalize C).parish.FN = gtj.entries.length ∧
    (finalize C).parish.TP + (finalize C).parish.FP = pred.entries.length := by
  have hTP : (finalize C).parish.TP = (C.get .parish).TP := rfl
  have hFP : (finalize C).parish.FP = (C.get .parish).FP := rfl
  have hFN : (finalize C).parish.FN = (C.get .parish).FN := rfl
  unfold evaluateCounters evalCore at h
  rw [Option.map_eq_some'] at h
  obtain ⟨⟨m2, av2, tr2⟩, hcore, hC⟩ := h
  have hcons := matchLoop_parish scorer thr pred.entries gtj.entries _ _ _ _ _ _ hcore
  rw [pagePair_parish] at hcons
  have hCeq : (av2.foldl
      (fun m3 _ => entryFields.foldl (fun m2 f => m2.update f 0 1 0) m3) m2) = C := hC
  have hget := leftoverFold_parish av2 m2
  rw [hCeq] at hget
  have hlen : (pred.entries.map (fun e => e.parish)).length = pred.entries.length :=
    List.length_map _ _
  have hcTP : (C.get .parish).TP = (m2.get .parish).TP := by rw [hget]
  have hcFP : (C.get .parish).FP = (m2.get .parish).FP + av2.length := by rw [hget]
  have hcFN : (C.get .parish).FN = (m2.get .parish).FN := by rw [hget]
  rw [hTP, hFP, hFN, hcTP, hcFP, hcFN]
  simp only [initCounters] at hcons
  obtain ⟨h1, h2, h3⟩ := hcons
  constructor
  · omega
  · omega

/-- C5 witness: conservation at a concrete one-entry pair. -/
theorem c5_matcher_conservation_witness :
    evaluateCounters exactScorer 80 pagePredOne pageGtOne = some cAccOneMatch ∧
    (finalize cAccOneMatch).parish.TP + (finalize cAccOneMatch).parish.FN =
      pageGtOne.entries.length ∧
    (finalize cAccOneMatch).parish.TP + (finalize cAccOneMatch).parish.FP =
      pagePredOne.entries.length :=
  ⟨by decide,
    (c5_matcher_conservation exactScorer 80 pagePredOne pageGtOne cAccOneMatch
      (by decide)).1,
    (c5_matcher_conservation exactScorer 80 pagePredOne pageGtOne cAccOneMatch
      (by decide)).2⟩

/-- C6 counterexample: a produced Metrics Record can have `precision = 0`
with a nonzero denominator `TP + FP = 1` (prediction carries a page number,
ground truth does not) — so "equals 0 exactly when the denominator is 0"
fails in the only-if direction. -/
theorem c6_zero_precision_nonzero_denominator :
    evaluateCounters exactScorer 80 pagePredPnum pageEmpty = some cAccPnumFP ∧
    (finalize cAccPnumFP).page_number.TP + (finalize cAccPnumFP).page_number.FP ≠ 0 ∧
    (finalize cAccPnumFP).page_number.precision = 0 := by
  refine ⟨by decide, by decide, ?_⟩
  show (deriveField ⟨0, 1, 0⟩).precision = 0
  simp only [deriveField]
  rw [show (if (0 : Nat) + 1 ≠ 0 then ((0 : Nat) : ℚ) / (((0 : Nat) : ℚ) + ((1 : Nat) : ℚ))
      else 0) = 0 from by norm_num]
  exact roundTo3_zero

/-- C6 (amended): for every Metrics Record produced by the Field Scorer,
each of precision, recall, f1 and accuracy lies in `[0, 1]`; precision,
recall and accuracy are 0 whenever their defining denominators (`TP+FP`,
`TP+FN`, `TP+FP+FN`) are 0, and f1 is 0 whenever `TP = 0` (in particular
whenever the unrounded precision + recall is 0); the converse direction
fails, since a metric can be 0 with a nonzero denominator. -/
theorem c6_scorer_bounds (scorer : Scorer) (thr : Nat) (pred gtj : Page) (C : CAcc)
    (f : MField) (h : evaluateCounters scorer thr pred gtj = some C) :
    (0 ≤ ((finalize C).get f).precision ∧ ((finalize C).get f).precision ≤ 1) ∧
    (0 ≤ ((finalize C).get f).recall' ∧ ((finalize C).get f).recall' ≤ 1) ∧
    (0 ≤ ((finalize C).get f).f1 ∧ ((finalize C).get f).f1 ≤ 1) ∧
    (0 ≤ ((finalize C).get f).accuracy ∧ ((finalize C).get f).accuracy ≤ 1) ∧
    (((finalize C).get f).TP + ((finalize C).get f).FP = 0 →
      ((finalize C).get f).precision = 0) ∧
    (((finalize C).get f).TP + ((finalize C).get f).FN = 0 →
      ((finalize C).get f).recall' = 0) ∧
    (((finalize C).get f).TP = 0 → ((finalize C).get f).f1 = 0) ∧
    (((finalize C).get f).TP + ((finalize C).get f).FP + ((finalize C).get f).FN = 0 →
      ((finalize C).get f).accuracy = 0) := by
  rw [finalize_get]
  exact deriveField_props (C.get f)

/-- C6 witness: the bounds at a concrete produced record. -/
theorem c6_scorer_bounds_witness :
    evaluateCounters exactScorer 80 pagePredOne pageGtOne = some cAccOneMatch ∧
    (0 ≤ ((finalize cAccOneMatch).get MField.parish).precision ∧
      ((finalize cAccOneMatch).get MField.parish).precision ≤ 1) :=
  ⟨by decide,
    (c6_scorer_bounds exactScorer 80 pagePredOne pageGtOne cAccOneMatch .parish
      (by decide)).1⟩

/-- C7 counterexample: a single empty word labeled `B-parish` yields one
parish span but an entry-less Page Record — the builder flushes an entry
only when `current["parish"]` is truthy, and the empty string is falsy —
although no label is malformed and the arrays are parallel. -/
theorem c7_empty_word_breaks_entry_count :
    noMalformed ["B-parish"] = true ∧
    ([""] : List String).length = (["B-parish"] : List String).length ∧
    (buildPageJson [""] [] ["B-parish"]).entries.length = 0 ∧
    (bioToSpans (sortedInput [""] [] ["B-parish"]).1
      (sortedInput [""] [] ["B-parish"]).2).countP isParishSpan = 1 := by
  refine ⟨by decide, by decide, by decide, by decide⟩

/-- C7 (amended): for parallel words/labels whose labels contain no
malformed tag and whose words are all non-empty, the number of entries in
the built Page Record equals the number of `parish`-typed spans produced by
span assembly from the (layout-sorted) input. -/
theorem c7_entry_count_invariant (words : List String) (bboxes : List BBox)
    (labels : List String) (hlen : words.length = labels.length)
    (hmal : noMalformed labels = true) (hw : allNonEmpty words = true) :
    (buildPageJson words bboxes labels).entries.length =
      (bioToSpans (sortedInput words bboxes labels).1
        (sortedInput words bboxes labels).2).countP isParishSpan := by
  obtain ⟨hmw, hml⟩ := sortedInput_mem words bboxes labels hlen
  have hw2 : ∀ w ∈ (sortedInput words bboxes labels).1, w ≠ "" := by
    intro w hwm
    have h2 := List.all_eq_true.mp hw _ (hmw w hwm)
    simpa using h2
  have htexts : ∀ s ∈ bioToSpans (sortedInput words bboxes labels).1
      (sortedInput words bboxes labels).2, s.2 ≠ "" := by
    apply bioToSpansAux_texts
    · intro p hp
      exact hw2 p.1 (List.of_mem_zip hp).1
    · intro b hb
      simp at hb
  unfold buildPageJson
  exact pageFromSpans_count _ (fun s hs _ => htexts s hs)

/-- C7 witness: the amended claim at a concrete one-parish page. -/
theorem c7_entry_count_invariant_witness :
    noMalformed ["B-parish"] = true ∧ allNonEmpty ["w"] = true ∧
    (buildPageJson ["w"] [] ["B-parish"]).entries.length =
      (bioToSpans (sortedInput ["w"] [] ["B-parish"]).1
        (sortedInput ["w"] [] ["B-parish"]).2).countP isParishSpan :=
  ⟨by decide, by decide,
    c7_entry_count_invariant ["w"] [] ["B-parish"] (by decide) (by decide) (by decide)⟩

/-- C8: the Reading-Order Sorter returns the inputs unchanged when the boxes
are absent or their number mismatches the words, and otherwise returns the
words and labels reordered along a permutation of the index range that is
sorted by ascending `(y1, x1)` keys. -/
theorem c8_reading_order_sorter (words : List String) (bboxes : List BBox)
    (labels : List String) :
    ((bboxes = [] ∨ bboxes.length ≠ words.length) →
      sortByLayout words bboxes labels = (words, labels)) ∧
    (¬(bboxes = [] ∨ bboxes.length ≠ words.length) →
      (sortOrder words.length bboxes).Perm (List.range words.length) ∧
      (sortOrder words.length bboxes).Pairwise
        (fun i j => lexLe (layoutKey bboxes i) (layoutKey bboxes j) = true) ∧
      sortByLayout words bboxes labels =
        ((sortOrder words.length bboxes).map (fun i => words.getD i ""),
         (sortOrder words.length bboxes).map (fun i => labels.getD i ""))) := by
  constructor
  · intro h
    unfold sortByLayout
    rw [if_pos h]
  · intro h
    refine ⟨List.mergeSort_perm _ _, ?_, by unfold sortByLayout; rw [if_neg h]⟩
    have htr : ∀ (a b c : Nat),
        lexLe (layoutKey bboxes a) (layoutKey bboxes b) = true →
        lexLe (layoutKey bboxes b) (layoutKey bboxes c) = true →
        lexLe (layoutKey bboxes a) (layoutKey bboxes c) = true :=
      fun a b c h1 h2 => lexLe_trans _ _ _ h1 h2
    have hto : ∀ (a b : Nat),
        (lexLe (layoutKey bboxes a) (layoutKey bboxes b) ||
          lexLe (layoutKey bboxes b) (layoutKey bboxes a)) = true :=
      fun a b => lexLe_total _ _
    exact List.sorted_mergeSort htr hto (List.range words.length)

/-- C8 witness: the no-op branch at a concrete box-less input, and the
sorted-branch permutation at a concrete one-box input. -/
theorem c8_reading_order_sorter_witness :
    sortByLayout ["a", "b"] [] ["O", "O"] = (["a", "b"], ["O", "O"]) ∧
    (sortOrder 1 [⟨1, 2, 3, 4⟩]).Perm (List.range 1) :=
  ⟨(c8_reading_order_sorter ["a", "b"] [] ["O", "O"]).1 (Or.inl rfl),
    ((c8_reading_order_sorter ["a"] [⟨1, 2, 3, 4⟩] ["O"]).2 (by decide)).1⟩

/-- C9: the evaluation core never raises — for every scorer, threshold and
pair of well-typed Page Records, `evaluate_json_response` returns a normal
result (the embedded `StopIteration` and `ValueError` branches are
unreachable); the parser-side functions are total Lean functions by
construction. -/
theorem c9_core_never_raises (scorer : Scorer) (thr : Nat) (pred gtj : Page) :
    (evaluateJsonResponse scorer thr pred gtj).isSome = true := by
  unfold evaluateJsonResponse evaluateCounters evalCore
  rw [Option.isSome_map', Option.isSome_map']
  exact matchLoop_some scorer thr pred.entries gtj.entries _ _ [] (fun x hx => hx)

/-- C9 witness: a normal result at a concrete input. -/
theorem c9_core_never_raises_witness :
    (evaluateJsonResponse exactScorer 80 pagePredDup pageGtDup).isSome = true :=
  c9_core_never_raises exactScorer 80 pagePredDup pageGtDup

/-- C10 counterexample: `["w"]` with `["I-parish"]` produces the span list
`[(none, "w")]` whose entity type is null; rendering its feedback label as
`"B-" ++ ""` (the only way to read `"B-" + entity_type` there) produces
`[(some "", "w")]`, not the original list, so the idempotence claim fails
on span lists with a null entity type. -/
theorem c10_null_entity_type_feedback :
    bioToSpans ["w"] ["I-parish"] = [(none, "w")] ∧
    bioToSpans (feedbackWords [(none, "w")]) (feedbackLabels [(none, "w")]) ≠
      [(none, "w")] := ⟨by decide, by decide⟩

/-- C10 (amended): for every words/labels input whose produced span list has
no null entity type, feeding the span texts back as single-token words with
labels `"B-" + entity_type` reproduces exactly the same span list. -/
theorem c10_idempotence (words labels : List String)
    (h : ∀ s ∈ bioToSpans words labels, s.1 ≠ none) :
    bioToSpans (feedbackWords (bioToSpans words labels))
      (feedbackLabels (bioToSpans words labels)) = bioToSpans words labels :=
  feedback_getD _ h

/-- C10 witness: idempotence at a concrete three-span input. -/
theorem c10_idempotence_witness :
    bioToSpans (feedbackWords (bioToSpans ["a", "b", "c"]
        ["B-parish", "I-parish", "B-dedication"]))
      (feedbackLabels (bioToSpans ["a", "b", "c"]
        ["B-parish", "I-parish", "B-dedication"])) =
      bioToSpans ["a", "b", "c"] ["B-parish", "I-parish", "B-dedication"] :=
  c10_idempotence ["a", "b", "c"] ["B-parish", "I-parish", "B-dedication"] (by decide)
